import Mathlib

/-!
Verification development for the measurement subsystem of the
control-hazard-analyzer repository (file profilers/perfProfiler.py).

Conventions of the shallow embedding:
* Python integers are unbounded, so counter fields are modelled as `Int`.
* Python float division in the misprediction ratio is modelled as exact
  division in `ℚ`.
* A Python dictionary built by repeated `update` calls is modelled as an
  association list in insertion order, where a lookup returns the most
  recently written value for a key.
* A Python function that can raise an uncaught exception is modelled with
  an `Option` result (`none` = the exception propagates).
* Methods that mutate their receiver or argument in place (`PerfData.max`,
  the sort performed by `PerfProfiler._get_meddian`, the key function
  `missed_pct`) are modelled by returning the updated value explicitly.
* Diagnostic `print` calls are modelled as explicit event values returned
  by the embedded function.
-/

/-- One counter snapshot, mirroring class `PerfData` of perfProfiler.py.
Fields follow `PerfData.__init__`: `branches`, `missed_branches`,
`cache_bpu`, `ticks`, `instructions` and the completeness flag `is_full`. -/
structure PerfData where
  branches : Int
  missed_branches : Int
  cache_bpu : Int
  ticks : Int
  instructions : Int
  is_full : Bool
deriving DecidableEq, Repr

/-- Python `line.split(sep)` for a one-character separator, on the
character list of the string: splits at every occurrence, keeping empty
pieces, so the result is always non-empty (`"".split(sep) == [""]`). -/
def pySplit (sep : Char) : List Char → List (List Char)
  | [] => [[]]
  | c :: rest =>
    let r := pySplit sep rest
    if c = sep then [] :: r
    else
      match r with
      | h :: t => (c :: h) :: t
      | [] => [[c]]

/-- Python `s.strip()`: removes leading and trailing whitespace (ASCII
whitespace suffices for the wire format at hand). -/
def pyStrip (s : List Char) : List Char :=
  ((s.dropWhile Char.isWhitespace).reverse.dropWhile Char.isWhitespace).reverse

/-- Decimal digit run parser used by the embedded Python `int`: at least
one digit, most significant first. -/
def pyDigitsGo (acc : ℕ) : List Char → Option ℕ
  | [] => some acc
  | c :: rest =>
    if c.isDigit then pyDigitsGo (acc * 10 + (c.toNat - 48)) rest else none

/-- A non-empty all-digit run, or `none`. -/
def pyDigits? (s : List Char) : Option ℕ :=
  match s with
  | [] => none
  | _ => pyDigitsGo 0 s

/-- Python `int(s)` on a string: optional surrounding whitespace, an
optional sign, then decimal digits; any other shape raises `ValueError`,
modelled as `none`. (Underscore digit grouping is not modelled.) -/
def pyInt? (s : List Char) : Option Int :=
  let t := pyStrip s
  match t with
  | '-' :: rest => (pyDigits? rest).map (fun n => -(n : Int))
  | '+' :: rest => (pyDigits? rest).map (fun n => (n : Int))
  | _ => (pyDigits? t).map (fun n => (n : Int))

/-- Lookup in a Python dict modelled as an association list written in
insertion order: the most recently written binding for a key wins,
mirroring `dict.update` overwriting earlier values. -/
def dget (d : List (List Char × List Char)) (k : List Char) :
    Option (List Char) :=
  d.foldl (fun acc kv => if kv.1 = k then some kv.2 else acc) none

/-- `int(data_dict.get(key, -1))` from `PerfData.__init__`: a missing key
yields the sentinel `-1`; a present key is parsed with Python `int`. -/
def pyIntD (v : Option (List Char)) : Option Int :=
  match v with
  | none => some (-1)
  | some s => pyInt? s

/-- `PerfData.__init__(data_dict, is_full)`: each counter is read from the
dict with default `-1`; a value that fails integer parsing raises
`ValueError`, modelled as `none`. -/
def PerfData.init (data_dict : List (List Char × List Char))
    (is_full : Bool) : Option PerfData := do
  let branches ← pyIntD (dget data_dict "branches".data)
  let missed_branches ← pyIntD (dget data_dict "missed_branches".data)
  let cache_bpu ← pyIntD (dget data_dict "cache_BPU".data)
  let ticks ← pyIntD (dget data_dict "cpu_clock".data)
  let instructions ← pyIntD (dget data_dict "instructions".data)
  some { branches := branches, missed_branches := missed_branches,
         cache_bpu := cache_bpu, ticks := ticks,
         instructions := instructions, is_full := is_full }

/-- `PerfData.__sub__`: field-wise difference; the result keeps the
completeness flag of the left operand (`res.is_full = self.is_full`). -/
def PerfData.sub (self other : PerfData) : PerfData :=
  { branches := self.branches - other.branches
    missed_branches := self.missed_branches - other.missed_branches
    cache_bpu := self.cache_bpu - other.cache_bpu
    ticks := self.ticks - other.ticks
    instructions := self.instructions - other.instructions
    is_full := self.is_full }

/-- Value stored in the serialized result dict produced by
`PerfData.to_dict`: integer counters plus the boolean flag. -/
inductive OutVal where
  | i : Int → OutVal
  | b : Bool → OutVal
deriving DecidableEq, Repr

/-- `PerfData.to_dict`: renames the internal fields to the external
reporting names. -/
def PerfData.to_dict (self : PerfData) : List (String × OutVal) :=
  [("branchPred.lookups", OutVal.i self.branches),
   ("branchPred.condIncorrect", OutVal.i self.missed_branches),
   ("branchPred.BTBUpdates", OutVal.i self.cache_bpu),
   ("simTicks", OutVal.i self.ticks),
   ("instructions", OutVal.i self.instructions),
   ("isFull", OutVal.b self.is_full)]

/-- `PerfData.max(const)`: clamps every counter field of the receiver to at
least `const`, in place in Python; modelled by returning the updated
receiver. The flag `is_full` is untouched. -/
def PerfData.max (self : PerfData) (const : Int) : PerfData :=
  { branches := Max.max self.branches const
    missed_branches := Max.max self.missed_branches const
    cache_bpu := Max.max self.cache_bpu const
    ticks := Max.max self.ticks const
    instructions := Max.max self.instructions const
    is_full := self.is_full }

/-- `PerfProfiler.output_to_dict`: splits the captured stdout on newlines,
splits each line on `:`; a line with at least two parts contributes the
binding (first part stripped, second part stripped), later lines
overwriting earlier ones via `dict.update`; other lines are ignored. -/
def output_to_dict (output : String) : List (List Char × List Char) :=
  (pySplit '\n' output.data).foldl
    (fun data_dict line =>
      let splitted := pySplit ':' line
      match splitted with
      | name :: val :: _ => data_dict ++ [(pyStrip name, pyStrip val)]
      | _ => data_dict)
    []

/-- `PerfProfiler.tab_lines`: prepends a tab and indents every subsequent
line, dropping the final character of the replaced text
(`"\t" + lines.replace("\n", "\n\t")[:-1]`). -/
def tab_lines (lines : String) : String :=
  "\t" ++ ((lines.replace "\n" "\n\t").dropRight 1)

/-- Signal values that `execute_test` can send to the child process. The
source sends `signal.SIGINT` on timeout and never a kill signal. -/
inductive Sig where
  | sigint
  | sigkill
deriving DecidableEq, Repr

/-- A diagnostic print emitted by `execute_test`:
* `errLaunch cmd text` models the pair of stderr prints
  `"[-]: Some error occurred during launching <cmd>:"` followed by the
  tabbed stderr text; it carries the exact joined command line.
* `capsWarn` models the generic print
  reading `Maybe perf [does not] have enough capabilities or your CPU
  [does not] have special debug counters`, which carries no command
  attribution. -/
inductive PMsg where
  | errLaunch : String → String → PMsg
  | capsWarn : PMsg
deriving DecidableEq, Repr

/-- Observable behaviour of one child process, the environment input to
`execute_test`: whether `proc.wait(timeout)` raised `TimeoutExpired`, the
exit code reported by the OS, and the captured stdout and stderr texts.
`Popen` was given `stdout=PIPE` and `stderr=PIPE`, so both streams are
always present and the `is not None` guards in the source are always
taken; the streams are therefore modelled as plain strings. -/
structure ProcResult where
  timedOut : Bool
  returncode : Int
  stdout : String
  stderr : String
deriving DecidableEq, Repr

/-- Result of one embedded `execute_test` call: the parsed sample, the
signal sent (if any), the final value of `proc.returncode` after the
method body, and the diagnostics printed. -/
structure ExecResult where
  data : PerfData
  sentSignal : Option Sig
  returncode : Int
  messages : List PMsg
deriving DecidableEq, Repr

/-- `PerfProfiler.execute_test(execute_line, timeout)`.
On `TimeoutExpired` the source sends `SIGINT`, sets `is_full = False`, and
then evaluates `proc.returncode is not int`. That expression compares the
returncode value with the type object `int` by identity, which is true for
every possible returncode value, so the source unconditionally overwrites
`proc.returncode` with `0` on the timeout path. Stdout is parsed with
`output_to_dict` and `PerfData.__init__` (a `ValueError` there propagates,
modelled as `none`); non-empty stderr is printed attributed to the joined
command line; a final nonzero returncode triggers the generic capability
warning. -/
def execute_test (execute_line : List String) (p : ProcResult) :
    Option ExecResult :=
  let is_full := !p.timedOut
  let sentSignal := if p.timedOut then some Sig.sigint else none
  let rc : Int := if p.timedOut then 0 else p.returncode
  match PerfData.init (output_to_dict p.stdout) is_full with
  | none => none
  | some data =>
    let msgs1 : List PMsg :=
      if p.stderr.length > 0 then
        [PMsg.errLaunch (" ".intercalate execute_line) (tab_lines p.stderr)]
      else []
    let msgs2 : List PMsg := if rc ≠ 0 then [PMsg.capsWarn] else []
    some { data := data, sentSignal := sentSignal, returncode := rc,
           messages := msgs1 ++ msgs2 }

/-- The `while` loop of `PerfProfiler.get_stat`, abstracted over the wall
time each iteration consumes. `dur k` is the wall-clock time consumed by
attempt `k` (execution plus loop overhead), `res k` the sample it
produces. The loop body runs while `left_time > 0` and
`number_executes != 0`; each iteration appends one sample, recomputes
`left_time = timeout - time.time()` (so the new remainder is the old one
minus the time just consumed) and decrements `number_executes`. The
explicit `fuel` bounds the depth of the simulation only; the theorems
below give bounds that are uniform in `fuel`. -/
def get_stat_go (dur : ℕ → ℚ) (res : ℕ → PerfData) :
    ℕ → ℚ → Int → ℕ → List PerfData
  | 0, _, _, _ => []
  | fuel + 1, left_time, number_executes, k =>
    if 0 < left_time ∧ number_executes ≠ 0 then
      res k :: get_stat_go dur res fuel (left_time - dur k)
        (number_executes - 1) (k + 1)
    else []

/-- `PerfProfiler.get_stat`: starts the loop with
`left_time = settings.timeout` and the requested repetition count
(`-1` meaning unlimited). -/
def get_stat (dur : ℕ → ℚ) (res : ℕ → PerfData) (timeout : ℚ)
    (number_executes : Int) (fuel : ℕ) : List PerfData :=
  get_stat_go dur res fuel timeout number_executes 0

/-- The in-place update performed by the key function `missed_pct` inside
`PerfProfiler._get_meddian`: a sample whose `branches` counter is recorded
as `0` has that counter rewritten to `1` (mutating the sample object). -/
def missed_pct_upd (dt : PerfData) : PerfData :=
  if dt.branches = 0 then { dt with branches := 1 } else dt

/-- The value returned by the key function `missed_pct`, computed after the
update: `missed_branches / branches` with the coerced denominator. Python
float division is modelled as exact division in `ℚ`. -/
def missed_pct_val (dt : PerfData) : ℚ :=
  ((missed_pct_upd dt).missed_branches : ℚ) / ((missed_pct_upd dt).branches : ℚ)

/-- Boolean comparison of two samples by misprediction ratio, the order
used by `stats.sort(key=missed_pct)`. -/
def ratioLe (a b : PerfData) : Bool :=
  decide (missed_pct_val a ≤ missed_pct_val b)

/-- `PerfProfiler._get_meddian(stats)`.
Python `list.sort(key=f)` first applies `f` once to every element in list
order (here mutating every zero-`branches` sample via `missed_pct_upd`)
and then stably sorts the elements by the precomputed keys; `mergeSort` is
a stable sort, so the sorted mutated list is
`(stats.map missed_pct_upd).mergeSort ratioLe`. The first component is the
list as left mutated and reordered by the call; the second is the returned
value: the element at index `len // 2` of the sorted list when the list is
non-empty, otherwise `none`. -/
def _get_meddian (stats : List PerfData) : List PerfData × Option PerfData :=
  let sorted := (stats.map missed_pct_upd).mergeSort ratioLe
  (sorted, if 0 < sorted.length then sorted[sorted.length / 2]? else none)

/-- `PerfProfiler.get_meddian(stats)`: copies the list, selects over all
samples, then filters the (sorted, mutated) copy to the samples with
`is_full` set, selects over that subset, and prefers the complete-only
result when it exists. -/
def get_meddian (stats : List PerfData) : Option PerfData :=
  let res := _get_meddian stats
  let average := res.2
  let full_stats := res.1.filter (fun stat => stat.is_full)
  let full_average := (_get_meddian full_stats).2
  match full_average with
  | some fa => some fa
  | none => average

/-- The key of the reference binary: `empty_test_path.name.split(".")[0]`
with `empty_test_path = .../empty.c`. -/
def key_empty_test : String := "empty"

/-- Dictionary lookup in an association list with distinct keys (Python
dict access `m[k]` / `m.get(k)`). -/
def lookupA {α : Type} (m : List (String × α)) (k : String) : Option α :=
  (m.find? (fun kv => kv.1 == k)).map (fun kv => kv.2)

/-- The local `analyzed_average` of `PerfProfiler.correct`: per-key
representative samples, keeping only the binaries for which `get_meddian`
returned a sample, in insertion order. -/
def analyzedAverageOf (analyzed : List (String × List PerfData)) :
    List (String × PerfData) :=
  (analyzed.map (fun kv => (kv.1, get_meddian kv.2))).filterMap
    (fun kv => kv.2.map (fun v => (kv.1, v)))

/-- The test identities reported by `correct` with the error message
`Error: [cannot] get average result of <key> test`: the binaries whose
`get_meddian` returned `None`. The event is modelled by the reported key
itself, which is the identity embedded in the printed message. -/
def failedOf (analyzed : List (String × List PerfData)) : List String :=
  (analyzed.map (fun kv => (kv.1, get_meddian kv.2))).filterMap
    (fun kv => if kv.2.isNone then some kv.1 else none)

/-- `PerfProfiler.correct(analyzed)`. After dropping binaries without a
representative, the source evaluates
`analyzed_average[key_empty_test].max(0)`: if the reference key is absent
(its selection returned `None`, or no reference entry exists) this raises
an uncaught `KeyError`, modelled as a `none` first component. Otherwise
the floored reference is subtracted from every other representative and
the reference entry itself is omitted from the returned mapping, whose
values are serialized with `to_dict`. The second component is the list of
reported failed test identities. -/
def correct (analyzed : List (String × List PerfData)) :
    Option (List (String × List (String × OutVal))) × List String :=
  match lookupA (analyzedAverageOf analyzed) key_empty_test with
  | none => (none, failedOf analyzed)
  | some re =>
    let reF := re.max 0
    (some ((analyzedAverageOf analyzed).filterMap
      (fun kv =>
        if kv.1 = key_empty_test then none
        else some (kv.1, (kv.2.sub reF).to_dict))),
     failedOf analyzed)

/-- Environment description of one binary for
`PerfProfiler.update_capabilities_dir`: its name, whether the plain
`setcap` invocation succeeds, whether the `sudo setcap` invocation
succeeds, and the stderr text captured from a failing invocation. -/
structure CapBin where
  name : String
  okPlain : Bool
  okSudo : Bool
  errText : String
deriving DecidableEq, Repr

/-- Observable events of the capability loop for one binary: the attempts
made (`(usedSudo, succeeded)` in order), the error diagnostics printed,
and how many times the one-time sudo hint was printed. -/
structure CapRun where
  attempts : List (Bool × Bool)
  errs : List String
  hints : ℕ
deriving DecidableEq, Repr

/-- The `while (not suc_launch) and (not used_max_perm)` loop of
`update_capabilities_dir` for one binary, with the loop state passed
explicitly: `suc` is `suc_launch`, `used` is `used_max_perm`, `us` is the
run-global `use_sudo`, `sh` the run-global `sudo_hint`. Returns the events
together with the updated global state. The loop body runs at most twice
(a second iteration forces `used_max_perm = True`), so any `fuel ≥ 2`
yields the exact behaviour; see `capLoopGo_fuel`. -/
def capLoopGo (b : CapBin) :
    ℕ → Bool → Bool → Bool → Bool → CapRun × Bool × Bool
  | 0, _, _, us, sh => (⟨[], [], 0⟩, us, sh)
  | fuel + 1, suc, used, us, sh =>
    if suc = false ∧ used = false then
      let hints0 : ℕ := if us = true ∧ sh = true then 1 else 0
      let sh1 := if us = true ∧ sh = true then false else sh
      let used1 := if us then true else used
      let isSudo := us
      let ok := if isSudo then b.okSudo else b.okPlain
      if ok then
        let rest := capLoopGo b fuel true used1 us sh1
        (⟨(isSudo, true) :: rest.1.attempts, rest.1.errs,
          hints0 + rest.1.hints⟩, rest.2)
      else
        let errs0 := if used1 then [b.errText] else []
        let rest := capLoopGo b fuel false used1 true sh1
        (⟨(isSudo, false) :: rest.1.attempts, errs0 ++ rest.1.errs,
          hints0 + rest.1.hints⟩, rest.2)
    else (⟨[], [], 0⟩, us, sh)

/-- The `for binary in target_dir.iterdir()` loop of
`update_capabilities_dir`, threading the run-global `use_sudo` and
`sudo_hint` flags through the per-binary loop. -/
def capDirGo : List CapBin → Bool → Bool → List (CapBin × CapRun)
  | [], _, _ => []
  | b :: rest, us, sh =>
    let r := capLoopGo b 2 false false us sh
    (b, r.1) :: capDirGo rest r.2.1 r.2.2

/-- `PerfProfiler.update_capabilities_dir`: initial state
`sudo_hint = True`, `use_sudo = False`. -/
def update_capabilities_dir (bins : List CapBin) : List (CapBin × CapRun) :=
  capDirGo bins false true

/-! ### Concrete inputs used by witnesses and counterexamples -/

/-- A complete sample with a low misprediction ratio. -/
def demoA : PerfData := ⟨100, 10, 5, 1000, 500, true⟩

/-- A complete sample with a middling misprediction ratio. -/
def demoB : PerfData := ⟨100, 50, 5, 1000, 500, true⟩

/-- An interrupted (incomplete) sample with a high misprediction ratio. -/
def demoI : PerfData := ⟨100, 90, 5, 1000, 500, false⟩

/-- A sample whose branches counter was recorded as zero. -/
def demoZ : PerfData := ⟨0, 3, 4, 5, 6, true⟩

/-- A batch with a reference entry and one candidate binary. -/
def demoBatch : List (String × List PerfData) :=
  [(key_empty_test, [demoA]), ("t", [demoB])]

/-- A batch whose candidate binary produced no samples at all. -/
def demoBatch2 : List (String × List PerfData) :=
  [(key_empty_test, [demoA]), ("t2", [])]

/-- A batch whose reference binary produced no samples at all. -/
def demoBatchRefFail : List (String × List PerfData) :=
  [(key_empty_test, []), ("t", [demoA])]

/-- A process observation for a run that exhausted its time budget quietly. -/
def demoProcTimeout : ProcResult := ⟨true, 5, "", ""⟩

/-- The execution result of the quiet timed-out run: all counters sentinel,
interrupt sent, returncode forced to zero, no diagnostics. -/
def demoExecTimeout : ExecResult :=
  ⟨⟨-1, -1, -1, -1, -1, false⟩, some Sig.sigint, 0, []⟩

/-- The execution result of a failing run with stderr text
(`⟨false, 1, "", "eek"⟩`): both diagnostics are printed. -/
def demoExecErr : ExecResult :=
  ⟨⟨-1, -1, -1, -1, -1, true⟩, none, 1,
   [PMsg.errLaunch (" ".intercalate ["bin", "0"]) (tab_lines "eek"),
    PMsg.capsWarn]⟩

/-- A binary whose plain setcap fails but whose sudo setcap succeeds. -/
def capB1 : CapBin := ⟨"b1", false, true, "e1"⟩

/-- A binary whose plain setcap would succeed. -/
def capB2 : CapBin := ⟨"b2", true, true, "e2"⟩

/-! ## Helper lemmas -/

theorem ratioLe_trans : ∀ a b c : PerfData,
    ratioLe a b → ratioLe b c → ratioLe a c := by
  intro a b c h1 h2
  simp only [ratioLe, decide_eq_true_eq] at *
  exact le_trans h1 h2

theorem ratioLe_total : ∀ a b : PerfData, ratioLe a b || ratioLe b a := by
  intro a b
  simp only [ratioLe, Bool.or_eq_true, decide_eq_true_eq]
  exact le_total _ _

theorem missed_pct_upd_idem (s : PerfData) :
    missed_pct_upd (missed_pct_upd s) = missed_pct_upd s := by
  unfold missed_pct_upd
  by_cases h : s.branches = 0 <;> simp [h]

theorem missed_pct_upd_is_full (s : PerfData) :
    (missed_pct_upd s).is_full = s.is_full := by
  unfold missed_pct_upd
  by_cases h : s.branches = 0 <;> simp [h]

theorem map_eq_self_of_mem {α : Type} {f : α → α} :
    ∀ {l : List α}, (∀ x ∈ l, f x = x) → l.map f = l
  | [], _ => rfl
  | a :: l, h => by
    simp only [List.map_cons, h a (by simp), List.cons.injEq, true_and]
    exact map_eq_self_of_mem (fun x hx => h x (by simp [hx]))

theorem append_parts_eq {α : Type} (P : α → Prop) :
    ∀ {m₁ m₂ n₁ n₂ : List α}, m₁ ++ m₂ = n₁ ++ n₂ →
    (∀ x ∈ m₁, ¬ P x) → (∀ x ∈ m₂, P x) →
    (∀ x ∈ n₁, ¬ P x) → (∀ x ∈ n₂, P x) →
    m₁ = n₁ ∧ m₂ = n₂ := by
  intro m₁ m₂ n₁ n₂ h hm1 hm2 hn1 hn2
  rcases List.append_eq_append_iff.mp h with ⟨k, hk1, hk2⟩ | ⟨k, hk1, hk2⟩
  · cases k with
    | nil => exact ⟨by simpa using hk1.symm, by simpa using hk2⟩
    | cons x xs =>
      exact absurd (hm2 x (by simp [hk2])) (hn1 x (by simp [hk1]))
  · cases k with
    | nil => exact ⟨by simpa using hk1, by simpa using hk2.symm⟩
    | cons x xs =>
      exact absurd (hn2 x (by simp [hk2])) (hm1 x (by simp [hk1]))

/-- Stable sorting commutes with filtering: filtering the stably sorted
list is the same as stably sorting the filtered list. -/
theorem filter_mergeSort_comm {α : Type} (le : α → α → Bool)
    (htrans : ∀ a b c, le a b → le b c → le a c)
    (htotal : ∀ a b, le a b || le b a) (p : α → Bool) :
    ∀ l : List α, (l.mergeSort le).filter p = (l.filter p).mergeSort le
  | [] => by simp
  | a :: l => by
    have ih := filter_mergeSort_comm le htrans htotal p l
    obtain ⟨l₁, l₂, h₁, h₂, h₃⟩ := List.mergeSort_cons htrans htotal a l
    by_cases hp : p a
    · obtain ⟨m₁, m₂, g₁, g₂, g₃⟩ :=
        List.mergeSort_cons htrans htotal a (l.filter p)
      have key : m₁ ++ m₂ = l₁.filter p ++ l₂.filter p := by
        rw [← g₂, ← ih, h₂, List.filter_append]
      have s₁ : (List.mergeSort (a :: l) le).Pairwise (le · ·) :=
        List.sorted_mergeSort htrans htotal _
      have s₂ : (List.mergeSort (a :: l.filter p) le).Pairwise (le · ·) :=
        List.sorted_mergeSort htrans htotal _
      rw [h₁] at s₁
      rw [g₁] at s₂
      have hl₂ : ∀ x ∈ l₂, le a x := by
        intro x hx
        exact List.rel_of_pairwise_cons (List.pairwise_append.mp s₁).2.1 hx
      have hm₂ : ∀ x ∈ m₂, le a x := by
        intro x hx
        exact List.rel_of_pairwise_cons (List.pairwise_append.mp s₂).2.1 hx
      have parts := append_parts_eq (fun x => le a x = true) key
        (fun x hx => by simpa using g₃ x hx)
        (fun x hx => hm₂ x hx)
        (fun x hx => by simpa using h₃ x (List.mem_of_mem_filter hx))
        (fun x hx => hl₂ x (List.mem_of_mem_filter hx))
      rw [h₁, List.filter_append, List.filter_cons_of_pos hp,
        List.filter_cons_of_pos hp, g₁, parts.1, parts.2]
    · rw [h₁, List.filter_append, List.filter_cons_of_neg hp,
        List.filter_cons_of_neg hp, ← List.filter_append, ← h₂, ih]

theorem filter_full_map_upd : ∀ l : List PerfData,
    (l.map missed_pct_upd).filter (fun s => s.is_full) =
      (l.filter (fun s => s.is_full)).map missed_pct_upd
  | [] => rfl
  | a :: l => by
    by_cases h : a.is_full = true <;>
      simp [List.filter_cons, missed_pct_upd_is_full, h, filter_full_map_upd l]

/-- Every element of the list sorted by `_get_meddian` is an image of
`missed_pct_upd`, so applying the update again is the identity. -/
theorem map_upd_sorted (l : List PerfData) :
    (((l.map missed_pct_upd).mergeSort ratioLe).map missed_pct_upd) =
      (l.map missed_pct_upd).mergeSort ratioLe := by
  apply map_eq_self_of_mem
  intro x hx
  rw [List.mem_mergeSort] at hx
  obtain ⟨y, -, rfl⟩ := List.mem_map.mp hx
  exact missed_pct_upd_idem y

/-- The sorted complete-only sublist used in the second selection of
`get_meddian` equals the stable sort of the complete-only subset taken in
original execution order. -/
theorem full_stats_sorted_eq (stats : List PerfData) :
    ((((stats.map missed_pct_upd).mergeSort ratioLe).filter
        (fun s => s.is_full)).map missed_pct_upd).mergeSort ratioLe =
      ((stats.filter (fun s => s.is_full)).map missed_pct_upd).mergeSort
        ratioLe := by
  have h1 : (((stats.map missed_pct_upd).mergeSort ratioLe).filter
      (fun s => s.is_full)).map missed_pct_upd =
      ((stats.map missed_pct_upd).mergeSort ratioLe).filter
        (fun s => s.is_full) := by
    apply map_eq_self_of_mem
    intro x hx
    have hx' := List.mem_of_mem_filter hx
    rw [List.mem_mergeSort] at hx'
    obtain ⟨y, -, rfl⟩ := List.mem_map.mp hx'
    exact missed_pct_upd_idem y
  rw [h1, filter_mergeSort_comm ratioLe ratioLe_trans ratioLe_total]
  rw [List.mergeSort_of_sorted
    (List.sorted_mergeSort ratioLe_trans ratioLe_total _)]
  rw [filter_full_map_upd]

/-- The returned value of `_get_meddian` is always the entry of the sorted
list at index `length / 2` (for the empty list both sides are `none`). -/
theorem meddian_snd_eq (stats : List PerfData) :
    (_get_meddian stats).2 =
      ((_get_meddian stats).1)[((_get_meddian stats).1).length / 2]? := by
  simp only [_get_meddian]
  by_cases h : ((stats.map missed_pct_upd).mergeSort ratioLe).length = 0
  · rw [List.length_eq_zero] at h
    simp [h]
  · have hs : stats ≠ [] := by
      intro he
      apply h
      rw [he]
      simp
    simp [List.length_pos.mpr hs]

theorem meddian_snd_some (stats : List PerfData) (h : stats ≠ []) :
    ∃ x, (_get_meddian stats).2 = some x := by
  rw [meddian_snd_eq]
  have h1 : (_get_meddian stats).1 =
      (stats.map missed_pct_upd).mergeSort ratioLe := rfl
  have hlen : 0 < ((_get_meddian stats).1).length := by
    rw [h1, List.length_mergeSort, List.length_map]
    exact List.length_pos.mpr h
  have hidx : ((_get_meddian stats).1).length / 2 <
      ((_get_meddian stats).1).length :=
    Nat.div_lt_self hlen (by omega)
  exact ⟨_, List.getElem?_eq_getElem hidx⟩

theorem get_stat_go_nonpos (dur : ℕ → ℚ) (res : ℕ → PerfData) :
    ∀ (fuel : ℕ) (left : ℚ) (n : Int) (k : ℕ), left ≤ 0 →
      get_stat_go dur res fuel left n k = [] := by
  intro fuel left n k h
  cases fuel with
  | zero => rfl
  | succ fuel =>
    unfold get_stat_go
    rw [if_neg]
    intro hc
    exact absurd hc.1 (not_lt.mpr h)

theorem get_stat_go_le_reps (dur : ℕ → ℚ) (res : ℕ → PerfData) :
    ∀ (fuel : ℕ) (left : ℚ) (n : Int) (k : ℕ), 0 ≤ n →
      (get_stat_go dur res fuel left n k).length ≤ n.toNat
  | 0, _, _, _, _ => Nat.zero_le _
  | fuel + 1, left, n, k, hn => by
    unfold get_stat_go
    split
    · rename_i hc
      have hrec := get_stat_go_le_reps dur res fuel (left - dur k) (n - 1)
        (k + 1) (by omega)
      have hne : n ≠ 0 := hc.2
      simp only [List.length_cons]
      omega
    · simp

theorem get_stat_go_le_budget (dur : ℕ → ℚ) (res : ℕ → PerfData) (ε : ℚ)
    (hε : 0 < ε) (hdur : ∀ j, ε ≤ dur j) :
    ∀ (fuel : ℕ) (left : ℚ) (n : Int) (k : ℕ),
      (get_stat_go dur res fuel left n k).length ≤ (⌈left / ε⌉).toNat
  | 0, _, _, _ => by simp [get_stat_go]
  | fuel + 1, left, n, k => by
    unfold get_stat_go
    split
    · rename_i hc
      have hpos : (0 : ℚ) < left := hc.1
      have hrec := get_stat_go_le_budget dur res ε hε hdur fuel
        (left - dur k) (n - 1) (k + 1)
      have hstep : (left - dur k) / ε ≤ left / ε - 1 := by
        have h1 : left - dur k ≤ left - ε := by
          have := hdur k
          linarith
        have h2 : (left - dur k) / ε ≤ (left - ε) / ε :=
          (div_le_div_iff_of_pos_right hε).mpr h1
        have h3 : (left - ε) / ε = left / ε - 1 := by
          field_simp
        linarith
      have hceil : ⌈(left - dur k) / ε⌉ ≤ ⌈left / ε⌉ - 1 := by
        have := Int.ceil_mono hstep
        have hsub : ⌈left / ε - 1⌉ = ⌈left / ε⌉ - 1 := by
          have h4 := Int.ceil_sub_int (left / ε) 1
          simp only [Int.cast_one] at h4
          exact h4
        omega
      have hone : 1 ≤ ⌈left / ε⌉ := by
        have : (0 : ℚ) < left / ε := div_pos hpos hε
        have := Int.ceil_pos.mpr this
        omega
      simp only [List.length_cons]
      omega
    · simp

/-- Closed form of the per-binary capability loop: entered with
`use_sudo = us` and `sudo_hint = sh`, with fuel `2` (which the loop never
exhausts, see `capLoopGo_fuel`). -/
theorem capLoopGo_spec (b : CapBin) (us sh : Bool) :
    capLoopGo b 2 false false us sh =
      if us then
        (⟨[(true, b.okSudo)], if b.okSudo then [] else [b.errText],
          if sh then 1 else 0⟩, true, false)
      else if b.okPlain then
        (⟨[(false, true)], [], 0⟩, false, sh)
      else
        (⟨[(false, false), (true, b.okSudo)],
          if b.okSudo then [] else [b.errText],
          if sh then 1 else 0⟩, true, false) := by
  rcases b with ⟨name, okPlain, okSudo, errText⟩
  cases us <;> cases sh <;> cases okPlain <;> cases okSudo <;> rfl

/-- Once `suc_launch` or `used_max_perm` is set the loop does not run its
body again, for any remaining fuel. -/
theorem capLoopGo_exit (b : CapBin) (f : ℕ) (suc used us sh : Bool)
    (h : ¬(suc = false ∧ used = false)) :
    capLoopGo b f suc used us sh = (⟨[], [], 0⟩, us, sh) := by
  cases f with
  | zero => rfl
  | succ f =>
    unfold capLoopGo
    rw [if_neg h]

/-- The capability loop for one binary always terminates within two
iterations: any fuel of at least `2` yields the fuel-`2` behaviour. -/
theorem capLoopGo_fuel (b : CapBin) (us sh : Bool) (n : ℕ) :
    capLoopGo b (n + 2) false false us sh = capLoopGo b 2 false false us sh := by
  rcases b with ⟨name, okPlain, okSudo, errText⟩
  cases us <;> cases sh <;> cases okPlain <;> cases okSudo <;>
    simp [capLoopGo, capLoopGo_exit]

theorem capLoopGo_hints (b : CapBin) (us sh : Bool) :
    (capLoopGo b 2 false false us sh).1.hints +
      (if (capLoopGo b 2 false false us sh).2.2 = true then 1 else 0) ≤
      (if sh = true then 1 else 0) := by
  rw [capLoopGo_spec]
  cases us <;> cases sh <;> cases hp : b.okPlain <;> simp [hp]

theorem capDirGo_hints : ∀ (bins : List CapBin) (us sh : Bool),
    ((capDirGo bins us sh).map (fun kv => kv.2.hints)).sum ≤
      (if sh = true then 1 else 0)
  | [], _, _ => by simp [capDirGo]
  | b :: rest, us, sh => by
    simp only [capDirGo, List.map_cons, List.sum_cons]
    have h1 := capLoopGo_hints b us sh
    have h2 := capDirGo_hints rest (capLoopGo b 2 false false us sh).2.1
      (capLoopGo b 2 false false us sh).2.2
    cases hs2 : (capLoopGo b 2 false false us sh).2.2 <;>
      rw [hs2] at h1 h2 <;> cases sh <;> simp at h1 h2 ⊢ <;> omega

theorem capDirGo_perbin : ∀ (bins : List CapBin) (us sh : Bool),
    ∀ kv ∈ capDirGo bins us sh,
      kv.2.attempts.length ≤ 2 ∧
      (kv.2.attempts.filter (fun a => a.1)).length ≤ 1 ∧
      ((true, false) ∈ kv.2.attempts → kv.2.errs = [kv.1.errText])
  | [], _, _ => by simp [capDirGo]
  | b :: rest, us, sh => by
    intro kv hkv
    simp only [capDirGo, List.mem_cons] at hkv
    rcases hkv with rfl | hkv
    · rw [capLoopGo_spec]
      cases us <;> cases hp : b.okPlain <;> cases hq : b.okSudo <;>
        simp [hp, hq]
    · exact capDirGo_perbin rest _ _ kv hkv

theorem capDirGo_latched : ∀ (bins : List CapBin) (sh : Bool),
    ∀ kv ∈ capDirGo bins true sh, ∀ a ∈ kv.2.attempts, a.1 = true
  | [], _ => by simp [capDirGo]
  | b :: rest, sh => by
    intro kv hkv
    simp only [capDirGo, List.mem_cons] at hkv
    rcases hkv with rfl | hkv
    · rw [capLoopGo_spec]
      simp
    · have h2 : (capLoopGo b 2 false false true sh).2.1 = true := by
        rw [capLoopGo_spec]
        simp
      rw [h2] at hkv
      exact capDirGo_latched rest _ kv hkv

/-- The two sorted lists driving the second selection in `get_meddian`
coincide: filtering the sorted mutated list and re-selecting is the same
as selecting over the complete-only subset in original order. -/
theorem meddian_full_eq (stats : List PerfData) :
    _get_meddian (((stats.map missed_pct_upd).mergeSort ratioLe).filter
        (fun s => s.is_full)) =
      _get_meddian (stats.filter (fun s => s.is_full)) := by
  unfold _get_meddian
  rw [full_stats_sorted_eq]

theorem get_meddian_of_full_ne (stats : List PerfData)
    (h : stats.filter (fun s => s.is_full) ≠ []) :
    get_meddian stats =
      (_get_meddian (stats.filter (fun s => s.is_full))).2 := by
  obtain ⟨x, hx⟩ := meddian_snd_some (stats.filter (fun s => s.is_full)) h
  simp only [get_meddian]
  have e1 : (_get_meddian stats).1 =
      (stats.map missed_pct_upd).mergeSort ratioLe := rfl
  rw [e1, meddian_full_eq, hx]

theorem get_meddian_of_full_empty (stats : List PerfData)
    (h : stats.filter (fun s => s.is_full) = []) :
    get_meddian stats = (_get_meddian stats).2 := by
  simp only [get_meddian]
  have e1 : (_get_meddian stats).1 =
      (stats.map missed_pct_upd).mergeSort ratioLe := rfl
  rw [e1, meddian_full_eq, h]
  simp [_get_meddian]

theorem meddian_snd_mem (stats : List PerfData) (x : PerfData)
    (h : (_get_meddian stats).2 = some x) : x ∈ stats.map missed_pct_upd := by
  rw [meddian_snd_eq] at h
  have hmem := List.getElem?_mem h
  have e1 : (_get_meddian stats).1 =
      (stats.map missed_pct_upd).mergeSort ratioLe := rfl
  rw [e1] at hmem
  exact List.mem_mergeSort.mp hmem

theorem init_fields (d : List (List Char × List Char)) (fl : Bool)
    (x : PerfData)
    (h : PerfData.init d fl = some x) :
    pyIntD (dget d "branches".data) = some x.branches ∧
    pyIntD (dget d "missed_branches".data) = some x.missed_branches ∧
    pyIntD (dget d "cache_BPU".data) = some x.cache_bpu ∧
    pyIntD (dget d "cpu_clock".data) = some x.ticks ∧
    pyIntD (dget d "instructions".data) = some x.instructions ∧
    x.is_full = fl := by
  simp only [PerfData.init, bind, Option.bind_eq_some, Option.some.injEq] at h
  obtain ⟨v1, h1, v2, h2, v3, h3, v4, h4, v5, h5, hx⟩ := h
  subst hx
  exact ⟨h1, h2, h3, h4, h5, rfl⟩

theorem mem_analyzedAverage (analyzed : List (String × List PerfData))
    (kv0 : String × PerfData) :
    kv0 ∈ analyzedAverageOf analyzed ↔
      ∃ a ∈ analyzed, a.1 = kv0.1 ∧ get_meddian a.2 = some kv0.2 := by
  unfold analyzedAverageOf
  rw [List.mem_filterMap]
  constructor
  · rintro ⟨kv1, hkv1, hsome⟩
    rw [List.mem_map] at hkv1
    obtain ⟨a, ha, rfl⟩ := hkv1
    cases hg : get_meddian a.2 with
    | none => rw [hg] at hsome; simp at hsome
    | some v =>
      rw [hg] at hsome
      have hsome2 : (a.1, v) = kv0 := by
        simpa using hsome
      refine ⟨a, ha, ?_, ?_⟩
      · rw [← hsome2]
      · rw [← hsome2]
        exact hg
  · rintro ⟨a, ha, h1, h2⟩
    refine ⟨(a.1, get_meddian a.2), List.mem_map_of_mem _ ha, ?_⟩
    rw [h2]
    cases kv0 with
    | mk k v =>
      simp only at h1 h2
      simp [h1]

/-! ## Claim theorems -/

/-- C1: For every non-empty list of samples, `_get_meddian` sorts the
(key-mutated) list ascending by misprediction ratio — mispredicted
branches divided by branches, with a branches count recorded as `0`
coerced to `1` — using a stable sort (the sorted list is a permutation of
the input, is pairwise ordered by the ratio, and any ratio-ordered pair
keeps its original relative order), and returns the element at index
`length / 2` of the sorted list; for an empty list it returns `none`. -/
theorem c1_median_selection (stats : List PerfData) :
    (_get_meddian ([] : List PerfData)).2 = none ∧
    (∀ s : PerfData, missed_pct_val s =
      (s.missed_branches : ℚ) /
        (((if s.branches = 0 then 1 else s.branches) : Int) : ℚ)) ∧
    List.Perm ((_get_meddian stats).1) (stats.map missed_pct_upd) ∧
    ((_get_meddian stats).1).Pairwise
      (fun a b => missed_pct_val a ≤ missed_pct_val b) ∧
    (∀ a b : PerfData, List.Sublist [a, b] (stats.map missed_pct_upd) →
      missed_pct_val a ≤ missed_pct_val b →
      List.Sublist [a, b] ((_get_meddian stats).1)) ∧
    (stats ≠ [] → ∃ x, (_get_meddian stats).2 = some x ∧
      ((_get_meddian stats).1)[((_get_meddian stats).1).length / 2]? =
        some x) := by
  refine ⟨?_, ?_, ?_, ?_, ?_, ?_⟩
  · simp [_get_meddian]
  · intro s
    unfold missed_pct_val missed_pct_upd
    by_cases h : s.branches = 0 <;> simp [h]
  · exact List.mergeSort_perm _ _
  · have hs := List.sorted_mergeSort ratioLe_trans ratioLe_total
      (stats.map missed_pct_upd)
    exact hs.imp (fun hab => by
      simpa [ratioLe, decide_eq_true_eq] using hab)
  · intro a b hsub hle
    exact List.pair_sublist_mergeSort ratioLe_trans ratioLe_total
      (by simpa [ratioLe, decide_eq_true_eq] using hle) hsub
  · intro h
    obtain ⟨x, hx⟩ := meddian_snd_some stats h
    exact ⟨x, hx, (meddian_snd_eq stats).symm.trans hx⟩

theorem c1_median_selection_witness :
    ((_get_meddian [demoA, demoB]).2).isSome = true := by
  obtain ⟨x, hx, -⟩ :=
    (c1_median_selection [demoA, demoB]).2.2.2.2.2 (by decide)
  rw [hx]
  rfl

/-- C2: If the complete-only subset of a sample list is non-empty,
`get_meddian` returns exactly the median-by-rank selection computed over
that subset taken in original execution order — a (mutated) member of the
subset — overriding the all-samples selection; only when no complete
sample exists is the all-samples selection returned. -/
theorem c2_prefer_complete (stats : List PerfData) :
    (stats.filter (fun s => s.is_full) ≠ [] →
      get_meddian stats =
        (_get_meddian (stats.filter (fun s => s.is_full))).2 ∧
      ∃ x, get_meddian stats = some x ∧
        x ∈ (stats.filter (fun s => s.is_full)).map missed_pct_upd) ∧
    (stats.filter (fun s => s.is_full) = [] →
      get_meddian stats = (_get_meddian stats).2) := by
  constructor
  · intro h
    have he := get_meddian_of_full_ne stats h
    obtain ⟨x, hx⟩ := meddian_snd_some _ h
    exact ⟨he, x, he.trans hx, meddian_snd_mem _ _ hx⟩
  · exact get_meddian_of_full_empty stats

theorem c2_prefer_complete_witness :
    (get_meddian [demoI, demoA]).isSome = true := by
  obtain ⟨-, x, hx, -⟩ := (c2_prefer_complete [demoI, demoA]).1 (by decide)
  rw [hx]
  rfl

/-- C6: Subtraction of samples is exactly field-wise, and the result keeps
the completeness flag of the left operand, ignoring the flag of the right
operand. -/
theorem c6_subtraction_fieldwise (a b : PerfData) :
    (a.sub b).branches = a.branches - b.branches ∧
    (a.sub b).missed_branches = a.missed_branches - b.missed_branches ∧
    (a.sub b).cache_bpu = a.cache_bpu - b.cache_bpu ∧
    (a.sub b).ticks = a.ticks - b.ticks ∧
    (a.sub b).instructions = a.instructions - b.instructions ∧
    (a.sub b).is_full = a.is_full :=
  ⟨rfl, rfl, rfl, rfl, rfl, rfl⟩

/-- C10 counterexample: Robust Selection does not leave every input sample
unchanged: passing a single sample whose branches counter is `0` through
`_get_meddian` leaves the list holding a mutated sample (branches
rewritten to `1`), because the sort key function updates the sample in
place. -/
theorem c10_immutability_cex : (_get_meddian [demoZ]).1 ≠ [demoZ] := by
  simp only [_get_meddian, List.map_cons, List.map_nil,
    List.mergeSort_singleton]
  simp [missed_pct_upd, demoZ]

/-- C10 (amended): Subtraction produces a new sample; the floor operation
rewrites the counter fields of its receiver in place; Robust Selection
leaves the sample list a permutation of the key-mutated input, where the
key mutation rewrites a branches counter recorded as `0` to `1` and leaves
every other field (and the completeness flag) unchanged. -/
theorem c10_immutability_amended (stats : List PerfData) (a b : PerfData)
    (c : Int) :
    List.Perm ((_get_meddian stats).1) (stats.map missed_pct_upd) ∧
    (∀ s : PerfData,
      (missed_pct_upd s).branches =
        (if s.branches = 0 then 1 else s.branches) ∧
      (missed_pct_upd s).missed_branches = s.missed_branches ∧
      (missed_pct_upd s).cache_bpu = s.cache_bpu ∧
      (missed_pct_upd s).ticks = s.ticks ∧
      (missed_pct_upd s).instructions = s.instructions ∧
      (missed_pct_upd s).is_full = s.is_full) ∧
    (a.sub b = ⟨a.branches - b.branches, a.missed_branches - b.missed_branches,
      a.cache_bpu - b.cache_bpu, a.ticks - b.ticks,
      a.instructions - b.instructions, a.is_full⟩) ∧
    (a.max c = ⟨Max.max a.branches c, Max.max a.missed_branches c,
      Max.max a.cache_bpu c, Max.max a.ticks c, Max.max a.instructions c,
      a.is_full⟩) := by
  refine ⟨List.mergeSort_perm _ _, ?_, rfl, rfl⟩
  intro s
  unfold missed_pct_upd
  by_cases h : s.branches = 0 <;> simp [h]

/-! ### Concrete evaluations of the selection pipeline -/

theorem get_meddian_nil : get_meddian [] = none := by
  simp [get_meddian, _get_meddian]

theorem get_meddian_demoA : get_meddian [demoA] = some demoA := by
  simp [get_meddian, _get_meddian, missed_pct_upd, demoA]

theorem get_meddian_demoB : get_meddian [demoB] = some demoB := by
  simp [get_meddian, _get_meddian, missed_pct_upd, demoB]

theorem averages_demoBatch :
    analyzedAverageOf demoBatch = [(key_empty_test, demoA), ("t", demoB)] := by
  simp [analyzedAverageOf, demoBatch, get_meddian_demoA, get_meddian_demoB]

theorem lookup_demoBatch :
    lookupA (analyzedAverageOf demoBatch) key_empty_test = some demoA := by
  rw [averages_demoBatch]
  simp [lookupA, key_empty_test, List.find?]

theorem averages_demoBatch2 :
    analyzedAverageOf demoBatch2 = [(key_empty_test, demoA)] := by
  simp [analyzedAverageOf, demoBatch2, get_meddian_demoA, get_meddian_nil]

theorem lookup_demoBatch2 :
    lookupA (analyzedAverageOf demoBatch2) key_empty_test = some demoA := by
  rw [averages_demoBatch2]
  simp [lookupA, key_empty_test, List.find?]

/-- C3: When the batch contains a reference (empty) entry whose
representative exists, `correct` floors that representative at zero in
every counter field, subtracts the floored reference field-wise from every
other representative, and omits the reference entry from the returned
mapping. -/
theorem c3_baseline_correction (analyzed : List (String × List PerfData))
    (re : PerfData)
    (h : lookupA (analyzedAverageOf analyzed) key_empty_test = some re) :
    ∃ m, (correct analyzed).1 = some m ∧
      ((re.max 0).branches = Max.max re.branches 0 ∧
       (re.max 0).missed_branches = Max.max re.missed_branches 0 ∧
       (re.max 0).cache_bpu = Max.max re.cache_bpu 0 ∧
       (re.max 0).ticks = Max.max re.ticks 0 ∧
       (re.max 0).instructions = Max.max re.instructions 0) ∧
      (∀ kv ∈ m, kv.1 ≠ key_empty_test) ∧
      (∀ kv ∈ analyzedAverageOf analyzed, kv.1 ≠ key_empty_test →
        (kv.1, (kv.2.sub (re.max 0)).to_dict) ∈ m) := by
  refine ⟨(analyzedAverageOf analyzed).filterMap
    (fun kv => if kv.1 = key_empty_test then none
      else some (kv.1, (kv.2.sub (re.max 0)).to_dict)), ?_,
    ⟨rfl, rfl, rfl, rfl, rfl⟩, ?_, ?_⟩
  · unfold correct
    rw [h]
  · intro kv hkv
    rw [List.mem_filterMap] at hkv
    obtain ⟨kv0, hkv0, hsome⟩ := hkv
    by_cases hk : kv0.1 = key_empty_test
    · rw [if_pos hk] at hsome
      cases hsome
    · rw [if_neg hk] at hsome
      cases hsome
      exact hk
  · intro kv hkv hne
    rw [List.mem_filterMap]
    exact ⟨kv, hkv, by rw [if_neg hne]⟩

theorem c3_baseline_correction_witness :
    ((correct demoBatch).1).isSome = true := by
  obtain ⟨m, hm, -⟩ := c3_baseline_correction demoBatch demoA lookup_demoBatch
  rw [hm]
  rfl

/-- C4: The aggregation loop of `get_stat` honours its time budget and
repetition bound: with zero-time executions the number of attempts is at
most the requested repetition count; if the first execution alone consumes
the whole budget at most one sample is produced; and when each attempt
consumes at least some positive wall time `ε` the sample count is bounded
by `timeout / ε` regardless of the simulation depth and of the repetition
count — in particular a negative (unlimited) repetition count still yields
a finite list bounded by the time budget alone. -/
theorem c4_time_budget (timeout ε : ℚ) (number_executes : Int)
    (dur : ℕ → ℚ) (res : ℕ → PerfData) (fuel : ℕ) :
    ((∀ k, dur k = 0) → 0 ≤ number_executes →
      (get_stat dur res timeout number_executes fuel).length ≤
        number_executes.toNat) ∧
    (timeout ≤ dur 0 →
      (get_stat dur res timeout number_executes fuel).length ≤ 1) ∧
    (0 < ε → (∀ k, ε ≤ dur k) →
      (get_stat dur res timeout number_executes fuel).length ≤
        (⌈timeout / ε⌉).toNat) := by
  refine ⟨?_, ?_, ?_⟩
  · intro hdur hn
    exact get_stat_go_le_reps dur res fuel timeout number_executes 0 hn
  · intro hT
    unfold get_stat
    cases fuel with
    | zero => simp [get_stat_go]
    | succ fuel =>
      unfold get_stat_go
      split
      · rename_i hc
        rw [get_stat_go_nonpos dur res fuel _ _ _ (by linarith)]
        simp
      · simp
  · intro hε hdur
    exact get_stat_go_le_budget dur res ε hε hdur fuel timeout
      number_executes 0

theorem c4_time_budget_witness :
    (get_stat (fun _ => 1) (fun _ => demoA) 1 (-1) 5).length ≤
      (⌈(1 : ℚ) / 1⌉).toNat :=
  (c4_time_budget 1 1 (-1) (fun _ => 1) (fun _ => demoA) 5).2.2
    (by norm_num) (fun k => by norm_num)

/-- C5: On a run that exceeds its remaining budget, `execute_test` sends
`SIGINT` (not a kill), marks the sample incomplete, and overwrites the
reported exit status with `0` — the identity test `returncode is not int`
against the type object is true for every reported status — so the
interrupt path never emits the nonzero-exit capability warning. -/
theorem c5_interrupt_tolerance (execute_line : List String) (p : ProcResult)
    (r : ExecResult) (ht : p.timedOut = true)
    (h : execute_test execute_line p = some r) :
    r.sentSignal = some Sig.sigint ∧ r.data.is_full = false ∧
      r.returncode = 0 ∧ PMsg.capsWarn ∉ r.messages := by
  unfold execute_test at h
  rw [ht] at h
  simp only [Bool.not_true] at h
  cases hinit : PerfData.init (output_to_dict p.stdout) false with
  | none =>
    rw [hinit] at h
    cases h
  | some data =>
    rw [hinit] at h
    simp only [if_pos, Option.some.injEq, ne_eq] at h
    subst h
    have hfull := (init_fields _ _ _ hinit).2.2.2.2.2
    refine ⟨by simp, hfull, by simp, ?_⟩
    by_cases hs : p.stderr.length > 0 <;> simp [hs]

theorem c5_interrupt_tolerance_witness :
    demoExecTimeout.sentSignal = some Sig.sigint ∧
      demoExecTimeout.data.is_full = false ∧
      demoExecTimeout.returncode = 0 ∧
      PMsg.capsWarn ∉ demoExecTimeout.messages :=
  c5_interrupt_tolerance ["bin", "0"] demoProcTimeout demoExecTimeout rfl
    (by decide)

/-- C7 counterexample: the claim fails on the code in three ways at
concrete inputs. A quiet timed-out run is not logged at all (no warning);
a nonzero-exit run is logged only with the generic capability warning,
which carries no command attribution; and a recognized counter whose value
is not an integer literal raises `ValueError`, aborting the batch instead
of yielding a sentinel sample. -/
theorem c7_transient_failure_cex :
    execute_test ["bin", "0"] demoProcTimeout = some demoExecTimeout ∧
    execute_test ["bin", "0"] ⟨false, 1, "", ""⟩ =
      some ⟨⟨-1, -1, -1, -1, -1, true⟩, none, 1, [PMsg.capsWarn]⟩ ∧
    execute_test ["bin", "0"] ⟨false, 0, "branches: oops", ""⟩ = none :=
  ⟨rfl, rfl, rfl⟩

/-- C7 (amended): Non-empty stderr text is logged as a warning attributed
to the exact command line; a nonzero exit code (outside the interrupt
path) is logged as the generic capability warning, which does not name the
command; no other diagnostics exist; counters absent from the parsed
output hold the below-zero sentinel `-1`; a recognized counter whose value
fails integer parsing aborts the run (no sample is produced). -/
theorem c7_transient_failure_amended (execute_line : List String)
    (p : ProcResult) (r : ExecResult)
    (h : execute_test execute_line p = some r) :
    (p.stderr.length > 0 →
      PMsg.errLaunch (" ".intercalate execute_line) (tab_lines p.stderr) ∈
        r.messages) ∧
    (p.timedOut = false → p.returncode ≠ 0 → PMsg.capsWarn ∈ r.messages) ∧
    (∀ m ∈ r.messages,
      m = PMsg.errLaunch (" ".intercalate execute_line) (tab_lines p.stderr) ∨
      m = PMsg.capsWarn) ∧
    (dget (output_to_dict p.stdout) "branches".data = none →
      r.data.branches = -1) ∧
    (dget (output_to_dict p.stdout) "missed_branches".data = none →
      r.data.missed_branches = -1) ∧
    (dget (output_to_dict p.stdout) "cache_BPU".data = none →
      r.data.cache_bpu = -1) ∧
    (dget (output_to_dict p.stdout) "cpu_clock".data = none →
      r.data.ticks = -1) ∧
    (dget (output_to_dict p.stdout) "instructions".data = none →
      r.data.instructions = -1) := by
  simp only [execute_test] at h
  cases hinit : PerfData.init (output_to_dict p.stdout) (!p.timedOut) with
  | none =>
    rw [hinit] at h
    cases h
  | some data =>
    rw [hinit] at h
    simp only [Option.some.injEq] at h
    subst h
    have hf := init_fields _ _ _ hinit
    refine ⟨?_, ?_, ?_, ?_, ?_, ?_, ?_, ?_⟩
    · intro hs
      simp [hs]
    · intro hto hrc
      simp [hto, hrc]
    · intro m hm
      simp only [List.mem_append] at hm
      rcases hm with hm | hm
      · by_cases hs : p.stderr.length > 0
        · rw [if_pos hs] at hm
          simp at hm
          exact Or.inl hm
        · rw [if_neg hs] at hm
          cases hm
      · by_cases hrc : (if p.timedOut = true then 0 else p.returncode) ≠ 0
        · rw [if_pos hrc] at hm
          simp at hm
          exact Or.inr hm
        · rw [if_neg hrc] at hm
          cases hm
    · intro hd
      have h1 := hf.1
      rw [hd] at h1
      simp only [pyIntD, Option.some.injEq] at h1
      exact h1.symm
    · intro hd
      have h1 := hf.2.1
      rw [hd] at h1
      simp only [pyIntD, Option.some.injEq] at h1
      exact h1.symm
    · intro hd
      have h1 := hf.2.2.1
      rw [hd] at h1
      simp only [pyIntD, Option.some.injEq] at h1
      exact h1.symm
    · intro hd
      have h1 := hf.2.2.2.1
      rw [hd] at h1
      simp only [pyIntD, Option.some.injEq] at h1
      exact h1.symm
    · intro hd
      have h1 := hf.2.2.2.2.1
      rw [hd] at h1
      simp only [pyIntD, Option.some.injEq] at h1
      exact h1.symm

theorem c7_transient_failure_amended_witness :
    PMsg.errLaunch (" ".intercalate ["bin", "0"]) (tab_lines "eek") ∈
      demoExecErr.messages :=
  (c7_transient_failure_amended ["bin", "0"] ⟨false, 1, "", "eek"⟩
    demoExecErr rfl).1 (by decide)

/-- C8 counterexample: when the designated reference binary itself yields
no representative, `correct` does not complete: the lookup of the
reference key raises an uncaught `KeyError` and no mapping is returned,
although the claim promises completion with the remaining binaries. -/
theorem c8_reference_failure_cex : (correct demoBatchRefFail).1 = none := by
  have h1 : analyzedAverageOf demoBatchRefFail = [("t", demoA)] := by
    simp [analyzedAverageOf, demoBatchRefFail, get_meddian_demoA,
      get_meddian_nil]
  have h2 : lookupA [(("t" : String), demoA)] key_empty_test = none := by
    simp [lookupA, key_empty_test, List.find?]
  unfold correct
  rw [h1, h2]

/-- C8 (amended): Provided the reference binary itself has a
representative, every binary whose sample sequence yields no
representative is reported with its test identity, is excluded from the
returned mapping, and correction completes for all remaining binaries; if
the reference has no representative, correction fails and returns no
mapping. -/
theorem c8_failed_binaries_dropped (analyzed : List (String × List PerfData))
    (re : PerfData) (hnd : (analyzed.map Prod.fst).Nodup)
    (h : lookupA (analyzedAverageOf analyzed) key_empty_test = some re) :
    ∃ m, (correct analyzed).1 = some m ∧
      ∀ kv ∈ analyzed, get_meddian kv.2 = none →
        kv.1 ∈ (correct analyzed).2 ∧ ∀ e ∈ m, e.1 ≠ kv.1 := by
  refine ⟨(analyzedAverageOf analyzed).filterMap
    (fun kv => if kv.1 = key_empty_test then none
      else some (kv.1, (kv.2.sub (re.max 0)).to_dict)), ?_, ?_⟩
  · unfold correct
    rw [h]
  · intro kv hkv hmed
    constructor
    · have h2 : (correct analyzed).2 = failedOf analyzed := by
        unfold correct
        rw [h]
      rw [h2]
      unfold failedOf
      rw [List.mem_filterMap]
      exact ⟨(kv.1, get_meddian kv.2), List.mem_map_of_mem _ hkv,
        by rw [hmed]; rfl⟩
    · intro e he
      rw [List.mem_filterMap] at he
      obtain ⟨kv0, hkv0, hsome⟩ := he
      by_cases hk : kv0.1 = key_empty_test
      · rw [if_pos hk] at hsome
        cases hsome
      · rw [if_neg hk] at hsome
        cases hsome
        rw [mem_analyzedAverage] at hkv0
        obtain ⟨a, ha, ha1, ha2⟩ := hkv0
        intro heq
        have : a = kv := by
          apply List.inj_on_of_nodup_map hnd ha hkv
          rw [ha1]
          exact heq
        rw [this] at ha2
        rw [hmed] at ha2
        cases ha2

theorem c8_failed_binaries_dropped_witness :
    "t2" ∈ (correct demoBatch2).2 := by
  obtain ⟨m, -, hdrop⟩ := c8_failed_binaries_dropped demoBatch2 demoA
    (by decide) lookup_demoBatch2
  exact (hdrop ("t2", []) (by decide) get_meddian_nil).1

/-- C9 counterexample: it is not true that every binary first attempts the
unprivileged capability command: after the first binary fails its
unprivileged attempt, the second binary is attempted directly with sudo
(its first and only attempt is the privileged one), even though its own
unprivileged attempt would have succeeded. -/
theorem c9_escalation_cex :
    ¬ (∀ kv ∈ update_capabilities_dir [capB1, capB2],
        (kv.2.attempts.map Prod.fst).head? = some false) := by
  intro hall
  have h2 := hall (capB2, ⟨[(true, true)], [], 0⟩) (by decide)
  simp at h2

/-- C9 (amended): The escalation hint is printed at most once in the whole
run; each binary makes at most two attempts, at most one of them
privileged; an elevated (sudo) failure reports the captured diagnostic
text; the first binary of the run is attempted unprivileged first; but
privileged mode is latched run-wide: once entered, every subsequent binary
is attempted with sudo only. -/
theorem c9_escalation_amended (bins : List CapBin) :
    (((update_capabilities_dir bins).map (fun kv => kv.2.hints)).sum ≤ 1) ∧
    (∀ kv ∈ update_capabilities_dir bins,
      kv.2.attempts.length ≤ 2 ∧
      (kv.2.attempts.filter (fun a => a.1)).length ≤ 1 ∧
      ((true, false) ∈ kv.2.attempts → kv.2.errs = [kv.1.errText])) ∧
    (∀ b bs, bins = b :: bs →
      ∃ r rest, update_capabilities_dir bins = (b, r) :: rest ∧
        (r.attempts.map Prod.fst).head? = some false) ∧
    (∀ sh : Bool, ∀ kv ∈ capDirGo bins true sh, ∀ a ∈ kv.2.attempts,
      a.1 = true) := by
  refine ⟨?_, capDirGo_perbin bins false true, ?_,
    fun sh => capDirGo_latched bins sh⟩
  · have h := capDirGo_hints bins false true
    simpa using h
  · rintro b bs rfl
    refine ⟨(capLoopGo b 2 false false false true).1, _, rfl, ?_⟩
    rw [capLoopGo_spec]
    by_cases hp : b.okPlain = true <;> simp [hp]

theorem c9_escalation_amended_witness :
    ((capLoopGo capB1 2 false false false true).1).attempts.length ≤ 2 := by
  have h := (c9_escalation_amended [capB1, capB2]).2.1
  exact (h (capB1, (capLoopGo capB1 2 false false false true).1)
    (by decide)).1
